import Mathlib

/-!
Shallow embedding of the core of the MusicGenerator repository
(`deepmusic/model.py` and `deepmusic/musicdata.py`), together with proofs
of the behavioural properties stated in the specification.

Python-level failures (AssertionError, ValueError, IndexError,
NotImplementedError) are embedded as an `Except PyErr` result; floats are
embedded as exact rationals; numpy integer arithmetic as `Nat`/`Int` with
Python floor division written as `/` on `Nat` (both operands non-negative
wherever it occurs in the source).
-/

/-- Kinds of Python exceptions the embedded code can raise. -/
inductive PyErr where
  | assertionError
  | valueError
  | indexError
  | notImplementedError
deriving DecidableEq

/- ----------------------------------------------------------------
   Model.ScheduledSamplingPolicy  (model.py lines 72-131)
   ---------------------------------------------------------------- -/

/-- Parsed form of `args.scheduled_sampling`: the policy name followed by
its already-converted numeric parameters (`int(...)` for the steps,
`float(...)` for the values), as read in `__init__` lines 86-98. -/
inductive SamplingArgs where
  | none
  | always
  | linear (startStep endStep : Int) (startValue endValue : ℚ)
deriving DecidableEq

/-- Validated policy data captured by `self.sampling_policy_fct`: the
closure created in `__init__` is a pure function of these parameters, so
it is embedded as the parameters plus the evaluation function
`getPrevThreshold`. -/
inductive SamplingPolicy where
  | none
  | always
  | linear (startStep endStep : Int) (startValue endValue : ℚ)
deriving DecidableEq

/-- Embedding of `linear_policy` (model.py lines 107-118).  The source
ends with `elif end_step <= step` and an unreachable `else` raising
RuntimeError; the three guards are exhaustive over the integers, so the
final branch here is the `end_step <= step` case. -/
def linearThreshold (startStep endStep : Int) (startValue endValue : ℚ) (step : Int) : ℚ :=
  if step < startStep then startValue
  else if startStep ≤ step ∧ step < endStep then
    (startValue - endValue) / ((startStep : ℚ) - (endStep : ℚ)) * ((step : ℚ) - (startStep : ℚ)) + startValue
  else endValue

/-- Embedding of `ScheduledSamplingPolicy.__init__` (model.py lines
80-122): `none` and `always` construct constant policies, `linear`
raises ValueError when `start_step >= end_step` or either value is
outside `[0, 1]` (lines 100-103). -/
def mkScheduledSamplingPolicy : SamplingArgs → Except PyErr SamplingPolicy
  | .none => .ok .none
  | .always => .ok .always
  | .linear ss es sv ev =>
    if ss ≥ es ∨ ¬(0 ≤ sv ∧ sv ≤ 1) ∨ ¬(0 ≤ ev ∧ ev ≤ 1) then .error .valueError
    else .ok (.linear ss es sv ev)

/-- Embedding of `get_prev_threshold` (model.py lines 124-131): evaluate
the selected policy function at the global step (the timestep argument
`i` is ignored by the source). -/
def getPrevThreshold (pol : SamplingPolicy) (globStep : Int) : ℚ :=
  match pol with
  | .none => 1
  | .always => 0
  | .linear ss es sv ev => linearThreshold ss es sv ev globStep

/-- Embedding of the scheduled-sampling part of the Train branch of
`Model.step` (model.py lines 417-424): for each timestep `i` of the
sample the source draws `np.random.rand()` and sets
`feed_dict[self.use_prev[i]]` to True when the draw is `>=` the
threshold, to False otherwise.  The random draws are threaded in as the
explicit stream `rand`. -/
def stepTrainUsePrev (sampleLength : Nat) (pol : SamplingPolicy) (globStep : Int)
    (rand : Nat → ℚ) : List Bool :=
  (List.range sampleLength).map
    (fun i => if rand i ≥ getPrevThreshold pol globStep then true else false)

/- ----------------------------------------------------------------
   Model.LearningRatePolicy._lr_step  (model.py lines 187-190)
   ---------------------------------------------------------------- -/

/-- Embedding of `_lr_step` (model.py lines 187-190): every decay period
the learning rate is divided by 2, via
`learning_rate_init / 2**(glob_step//decay_period)`. -/
def lr_step (learning_rate_init : ℚ) (decay_period : Nat) (glob_step : Nat) : ℚ :=
  learning_rate_init / 2 ^ (glob_step / decay_period)

/- ----------------------------------------------------------------
   Model.TargetWeightsPolicy  (model.py lines 34-59)
   ---------------------------------------------------------------- -/

/-- Configuration fields of `args` consulted by `TargetWeightsPolicy`:
the policy name string and the sample length.  An unset (falsy)
`target_weights` is embedded as the empty string. -/
structure TWArgs where
  target_weights : String
  sample_length : Nat
deriving DecidableEq

/-- Embedding of the `TargetWeightsPolicy` object: its constructor
(model.py lines 42-47) only stores `args`. -/
structure TargetWeightsPolicy where
  args : TWArgs
deriving DecidableEq

/-- Embedding of `TargetWeightsPolicy.__init__` (model.py lines 42-47):
the body is `self.args = args`; no validation is performed, so
construction never fails. -/
def mkTargetWeightsPolicy (args : TWArgs) : Except PyErr TargetWeightsPolicy :=
  .ok ⟨args⟩

/-- Embedding of `TargetWeightsPolicy.get_weight` (model.py lines
49-59): weight 1 for an unset or `none` policy, `i/(sample_length-1)`
for `linear`, NotImplementedError for `step`, ValueError otherwise. -/
def get_weight (pol : TargetWeightsPolicy) (i : Nat) : Except PyErr ℚ :=
  if pol.args.target_weights = "" ∨ pol.args.target_weights = "none" then .ok 1
  else if pol.args.target_weights = "linear" then
    .ok ((i : ℚ) / ((pol.args.sample_length : ℚ) - 1))
  else if pol.args.target_weights = "step" then .error .notImplementedError
  else .error .valueError

/- ----------------------------------------------------------------
   Generate branch of Model.step  (model.py lines 430-441)
   ---------------------------------------------------------------- -/

/-- Sequential loop of the Generate branch over a list of timestep
indices: each index `i` with `i < len(batch.inputs)` feeds the seed
entry `batch.inputs[i]` with `use_prev = False`; otherwise the source
feeds the dummy filler `batch.inputs[0]` with `use_prev = True`, which
raises IndexError when the seed list is empty.  The loop stops at the
first error, like the Python `for`. -/
def genLoop {α : Type} (inputs : List α) : List Nat → Except PyErr (List (α × Bool))
  | [] => .ok []
  | i :: rest =>
    match (if h : i < inputs.length then Except.ok (inputs.get ⟨i, h⟩, false)
           else match inputs with
             | [] => Except.error PyErr.indexError
             | x :: _ => Except.ok (x, true)) with
    | .error e => .error e
    | .ok v =>
      match genLoop inputs rest with
      | .error e => .error e
      | .ok vs => .ok (v :: vs)

/-- Embedding of the Generate branch of `Model.step` (model.py lines
430-441): the list of `(fed input, use_prev)` pairs assigned to the
feed dictionary for timesteps `0, ..., sample_length - 1`. -/
def stepGenerateFeed {α : Type} (sampleLength : Nat) (inputs : List α) :
    Except PyErr (List (α × Bool)) :=
  genLoop inputs (List.range sampleLength)

/- ----------------------------------------------------------------
   Subsampling phase of MusicData.get_batches  (musicdata.py lines 279-287)
   ---------------------------------------------------------------- -/

/-- Embedding of `np.random.randint(high)`: a uniform draw from
`[0, high)`, which raises ValueError when the range is empty
(`high <= 0`).  The randomness is threaded in as the draw `r`, reduced
modulo the range size. -/
def npRandint (high : Int) (r : Nat) : Except PyErr Int :=
  if high ≤ 0 then .error .valueError else .ok ((r : Int) % high)

/-- Inner loop of the subsampling phase: one `np.random.randint
(max_start)` start offset per requested window, stopping at the first
error like the Python `for`. -/
def drawStarts (maxStart : Int) (draws : Nat → Nat) : List Nat → Except PyErr (List Int)
  | [] => .ok []
  | k :: rest =>
    match npRandint maxStart (draws k) with
    | .error e => .error e
    | .ok s =>
      match drawStarts maxStart draws rest with
      | .error e => .error e
      | .ok ss => .ok (s :: ss)

/-- Embedding of the per-song subsampling of `get_batches` (musicdata.py
lines 279-287): with `len_song` the last dimension of the roll,
`max_start = len_song - (sample_length + 1)` must be non-negative
(`assert`, embedded as AssertionError), and
`nb_sample_song = 2*len_song // sample_length` start offsets are then
drawn by `np.random.randint(max_start)`.  The result is the list of
values taken by the `start` variable; the windows themselves are the
slices `song[:, start:start+sample_length+1]`. -/
def songStarts (sampleLength lenSong : Nat) (draws : Nat → Nat) : Except PyErr (List Int) :=
  let maxStart : Int := (lenSong : Int) - ((sampleLength : Int) + 1)
  if maxStart < 0 then .error .assertionError
  else drawStarts maxStart draws (List.range (2 * lenSong / sampleLength))

/- ----------------------------------------------------------------
   Batch construction of MusicData.get_batches  (musicdata.py lines 304-323)
   ---------------------------------------------------------------- -/

/-- Embedding of the `Batch` class (musicdata.py lines 32-37): per-step
lists of input and target matrices; a matrix is a per-example list of
per-pitch rows embedded as functions from pitch index to value. -/
structure Batch where
  inputs : List (List (Nat → ℚ))
  targets : List (List (Nat → ℚ))

/-- Embedding of the batch-assembly loop of `get_batches` (musicdata.py
lines 312-321) for one group of samples: for each step `i` of the
sample length, entry `(j, pitch)` of the input is `1` where sample `j`
has value `1` in column `i` and `-1` elsewhere, and entry `(j, pitch)`
of the target is `1` where sample `j` has value `1` in column `i+1` and
`0` elsewhere.  A sample is a roll slice indexed `[pitch, column]`. -/
def buildBatch (samples : List (Nat → Nat → ℚ)) (sampleLength : Nat) : Batch where
  inputs := (List.range sampleLength).map
    (fun i => samples.map (fun s => fun p => if s p i = 1 then (1 : ℚ) else -1))
  targets := (List.range sampleLength).map
    (fun i => samples.map (fun s => fun p => if s p (i + 1) = 1 then (1 : ℚ) else 0))

/- ----------------------------------------------------------------
   Piano-roll codec  (musicdata.py lines 170-242, songstruct modelled)
   ---------------------------------------------------------------- -/

/-- Modelled from the spec: `songstruct.NB_NOTES`, the width NUM_PITCHES
of the pitch-class range (the source file `songstruct.py` is not under
src/). -/
def NB_NOTES : Nat := 88

/-- Modelled from the spec: lower end of the fixed bijection between
absolute MIDI-style pitch numbers and the offset range of width
`NB_NOTES` realised by `Note.get_relative_note` and
`Note.set_relative_note` (the source file `songstruct.py` is not under
src/). -/
def NOTE_MIN : Nat := 21

/-- Modelled from the spec: a note event of `songstruct`, carrying an
absolute MIDI-style pitch and an absolute time in ticks (duration is
ignored by the codec). -/
structure Note where
  tick : Nat
  pitch : Nat
deriving DecidableEq

/-- Modelled from the spec: `Note.get_relative_note`, the pitch-class
side of the fixed bijection. -/
def Note.get_relative_note (n : Note) : Int :=
  (n.pitch : Int) - (NOTE_MIN : Int)

/-- Modelled from the spec: building a note through
`Note.set_relative_note`, the inverse side of the bijection, together
with the assignment of its tick. -/
def Note.set_relative_note (p : Nat) (tick : Nat) : Note :=
  ⟨tick, p + NOTE_MIN⟩

/-- Modelled from the spec: a track of `songstruct`, an ordered sequence
of note events. -/
structure Track where
  notes : List Note
deriving DecidableEq

/-- Modelled from the spec: a song of `songstruct`, exposing
`ticks_per_beat`, the tracks, and `len(song)`, its length in ticks. -/
structure Song where
  ticks_per_beat : Nat
  tracks : List Track
  length : Nat
deriving DecidableEq

/-- Modelled from the spec: default MIDI resolution of a freshly
constructed `music.Song()`, used by `_convert_array2song`. -/
def DEFAULT_TICKS_PER_BEAT : Nat := 96

/-- Modelled from the spec: the freshly constructed `music.Song()` of
`_convert_array2song` before any track is appended (its length field is
irrelevant to the codec and set to 0). -/
def emptySong : Song := ⟨DEFAULT_TICKS_PER_BEAT, [], 0⟩

/-- Constant `MAXIMUM_SONG_RESOLUTION` of `MusicData.__init__`
(musicdata.py line 61). -/
def MAXIMUM_SONG_RESOLUTION : Nat := 4

/-- Constant `NOTES_PER_BAR` of `MusicData.__init__` (musicdata.py line
62). -/
def NOTES_PER_BAR : Nat := 4

/-- Embedding of `MusicData._get_scale` (musicdata.py lines 229-242):
`4 * song.ticks_per_beat // (MAXIMUM_SONG_RESOLUTION * NOTES_PER_BAR)`. -/
def get_scale (song : Song) : Nat :=
  4 * song.ticks_per_beat / (MAXIMUM_SONG_RESOLUTION * NOTES_PER_BAR)

/-- Embedding of the numpy piano-roll matrix of shape
`[NB_NOTES, width]`: the width together with the cell values (float
valued in the source, since decoded arrays may hold raw predictions). -/
structure PianoRoll where
  width : Nat
  val : Nat → Nat → ℚ

/-- Outcome of the note-writing loop of `_convert_song2array`
(musicdata.py lines 192-195) on one cell: the cell `[p, u]` ends up
holding 1 exactly when some note of some track writes to it, i.e. has
relative pitch `p` and quantized tick `u`; repeated writes are
idempotent. -/
def cellActive (song : Song) (p u : Nat) : Bool :=
  song.tracks.any (fun tr => tr.notes.any (fun n =>
    n.get_relative_note == (p : Int) && n.tick / get_scale song == u))

/-- Embedding of `MusicData._convert_song2array` (musicdata.py lines
170-197): the matrix has width `int(np.ceil(song_length/scale))` and
cell `[note.get_relative_note(), note.tick // scale]` is set to 1 for
every note of every track, all other cells holding the initial 0. -/
def convert_song2array (song : Song) : PianoRoll :=
  { width := (song.length + get_scale song - 1) / get_scale song
    val := fun p u => if cellActive song p u then 1 else 0 }

/-- Embedding of `MusicData._convert_array2song` (musicdata.py lines
199-227): scanning the matrix in `np.ndenumerate` row-major order, every
cell strictly above the threshold `1e-12` emits one note with relative
pitch the row index and tick `column * scale`, where the scale is that
of a freshly constructed default song; all notes go to a single track. -/
def convert_array2song (roll : PianoRoll) : Song :=
  { ticks_per_beat := DEFAULT_TICKS_PER_BEAT
    tracks := [⟨(List.range NB_NOTES).flatMap (fun p =>
      (List.range roll.width).filterMap (fun u =>
        if roll.val p u > 1 / 10 ^ 12 then
          some (Note.set_relative_note p (u * get_scale emptySong))
        else none))⟩]
    length := 0 }

/-- Flattened list of the note events of a song, in track order. -/
def songNotes (s : Song) : List Note :=
  s.tracks.flatMap (fun tr => tr.notes)

/-- Quantized activations of a decoded song: the
`(relative pitch, tick / scale)` pair of each emitted note, on the
quantization grid of the decoder (the scale of a default song). -/
def decodedPairs (s : Song) : List (Int × Nat) :=
  (songNotes s).map (fun n => (n.get_relative_note, n.tick / get_scale emptySong))

/-- Validity of a score for the codec: the quantization scale is a
positive integer, every pitch lies in the range of the pitch-class
bijection, and every note event occurs before the end of the song, so
that all matrix writes of `_convert_song2array` are in bounds. -/
def validSong (song : Song) : Prop :=
  1 ≤ get_scale song ∧
  ∀ tr ∈ song.tracks, ∀ n ∈ tr.notes,
    NOTE_MIN ≤ n.pitch ∧ n.pitch < NOTE_MIN + NB_NOTES ∧ n.tick < song.length

instance (song : Song) : Decidable (validSong song) := by
  unfold validSong
  infer_instance

/-- Concrete one-note score used to instantiate the round-trip theorem:
ticks_per_beat 4 gives scale 1, one note of pitch 60 at tick 1, length
2 ticks. -/
def sampleSong : Song := ⟨4, [⟨[⟨1, 60⟩]⟩], 2⟩

/- ----------------------------------------------------------------
   Theorems
   ---------------------------------------------------------------- -/

theorem stepTrainUsePrev_getElem (L : Nat) (pol : SamplingPolicy) (g : Int)
    (r : Nat → ℚ) (i : Nat) (hi : i < L) :
    (stepTrainUsePrev L pol g r)[i]? =
      some (if r i ≥ getPrevThreshold pol g then true else false) := by
  unfold stepTrainUsePrev
  rw [List.getElem?_map, List.getElem?_range hi, Option.map_some']

/-- C1 counterexample: with the `none` policy the threshold at global
step 0 is 1 and the draw 1/2 is strictly below it, yet the Train branch
marks the position `use_prev = False` (ground truth), contradicting the
claim that `use_prev` is set true exactly when the draw is below the
threshold. -/
theorem c1_counterexample :
    stepTrainUsePrev 1 SamplingPolicy.none 0 (fun _ => 1/2) = [false] ∧
    (1 : ℚ)/2 < getPrevThreshold SamplingPolicy.none 0 := by
  constructor
  · simp only [stepTrainUsePrev, List.range_succ, List.range_zero, List.nil_append,
      List.map_cons, List.map_nil]
    norm_num [getPrevThreshold]
  · norm_num [getPrevThreshold]

/-- C1 (amended): in Train mode, position `t` is marked
`use_prev = True` exactly when the uniform draw satisfies
`r >= θ(global_step)`, and the ground-truth input is kept
(`use_prev = False`) exactly when `r < θ(global_step)` — the opposite
orientation to the claim as stated. -/
theorem c1_use_prev_direction (L : Nat) (pol : SamplingPolicy) (g : Int)
    (r : Nat → ℚ) (i : Nat) (hi : i < L) :
    ((stepTrainUsePrev L pol g r)[i]? = some true ↔ getPrevThreshold pol g ≤ r i) ∧
    ((stepTrainUsePrev L pol g r)[i]? = some false ↔ r i < getPrevThreshold pol g) := by
  rw [stepTrainUsePrev_getElem L pol g r i hi]
  by_cases hc : getPrevThreshold pol g ≤ r i
  · simp [ge_iff_le, hc, not_lt.mpr hc]
  · simp [ge_iff_le, hc, not_le.mp hc]

theorem c1_witness :
    (0 : Nat) < 1 ∧
    (((stepTrainUsePrev 1 SamplingPolicy.always 5 (fun _ => 1/3))[0]? = some true ↔
        getPrevThreshold SamplingPolicy.always 5 ≤ (1 : ℚ)/3) ∧
     ((stepTrainUsePrev 1 SamplingPolicy.always 5 (fun _ => 1/3))[0]? = some false ↔
        (1 : ℚ)/3 < getPrevThreshold SamplingPolicy.always 5)) :=
  ⟨by decide, c1_use_prev_direction 1 SamplingPolicy.always 5 (fun _ => 1/3) 0 (by decide)⟩

/-- C2: under the `always` policy (threshold constantly 0) every Train
position of every step is marked use-previous-output, and under the
`none` policy (threshold constantly 1) every Train position keeps the
ground-truth input, for every stream of draws in `[0, 1)`. -/
theorem c2_always_none_policies (L : Nat) (g : Int) (r : Nat → ℚ)
    (hr : ∀ i, 0 ≤ r i ∧ r i < 1)
    (pa pn : SamplingPolicy)
    (ha : mkScheduledSamplingPolicy SamplingArgs.always = .ok pa)
    (hn : mkScheduledSamplingPolicy SamplingArgs.none = .ok pn) :
    (∀ i, i < L → (stepTrainUsePrev L pa g r)[i]? = some true) ∧
    (∀ i, i < L → (stepTrainUsePrev L pn g r)[i]? = some false) := by
  have hpa : pa = SamplingPolicy.always := by
    simp only [mkScheduledSamplingPolicy, Except.ok.injEq] at ha
    exact ha.symm
  have hpn : pn = SamplingPolicy.none := by
    simp only [mkScheduledSamplingPolicy, Except.ok.injEq] at hn
    exact hn.symm
  subst hpa
  subst hpn
  constructor
  · intro i hi
    rw [stepTrainUsePrev_getElem L _ g r i hi]
    have h0 : getPrevThreshold SamplingPolicy.always g ≤ r i := by
      simpa [getPrevThreshold] using (hr i).1
    simp [ge_iff_le, h0]
  · intro i hi
    rw [stepTrainUsePrev_getElem L _ g r i hi]
    have h1 : r i < getPrevThreshold SamplingPolicy.none g := by
      simpa [getPrevThreshold] using (hr i).2
    simp [ge_iff_le, not_le.mpr h1]

theorem c2_witness :
    (0 ≤ (1 : ℚ)/2 ∧ (1 : ℚ)/2 < 1) ∧
    (stepTrainUsePrev 2 SamplingPolicy.always 0 (fun _ => 1/2))[1]? = some true ∧
    (stepTrainUsePrev 2 SamplingPolicy.none 0 (fun _ => 1/2))[1]? = some false :=
  ⟨by norm_num,
   (c2_always_none_policies 2 0 (fun _ => 1/2) (fun _ => by norm_num)
     SamplingPolicy.always SamplingPolicy.none rfl rfl).1 1 (by decide),
   (c2_always_none_policies 2 0 (fun _ => 1/2) (fun _ => by norm_num)
     SamplingPolicy.always SamplingPolicy.none rfl rfl).2 1 (by decide)⟩

/-- C7: for every successfully constructed linear scheduled-sampling
policy and every step `n >= 0`, the threshold equals `start_val` before
`start_step`, the stated linear interpolation on
`[start_step, end_step)`, `end_val` from `end_step` on, and always lies
in `[0, 1]`. -/
theorem c7_linear_threshold (ss es : Int) (sv ev : ℚ) (pol : SamplingPolicy)
    (h : mkScheduledSamplingPolicy (SamplingArgs.linear ss es sv ev) = .ok pol)
    (n : Int) (hn : 0 ≤ n) :
    (n < ss → getPrevThreshold pol n = sv) ∧
    (ss ≤ n → n < es → getPrevThreshold pol n =
      sv + (sv - ev) / ((ss : ℚ) - (es : ℚ)) * ((n : ℚ) - (ss : ℚ))) ∧
    (es ≤ n → getPrevThreshold pol n = ev) ∧
    (0 ≤ getPrevThreshold pol n ∧ getPrevThreshold pol n ≤ 1) := by
  simp only [mkScheduledSamplingPolicy] at h
  split_ifs at h with hcond
  push_neg at hcond
  obtain ⟨h1, h2, h3⟩ := hcond
  injection h with h
  subst h
  have hss : (ss : ℚ) < (es : ℚ) := by exact_mod_cast h1
  have hD : (0 : ℚ) < (es : ℚ) - (ss : ℚ) := by linarith
  have hne1 : (ss : ℚ) - (es : ℚ) ≠ 0 := by intro hx; rw [sub_eq_zero] at hx; linarith
  have hne2 : (es : ℚ) - (ss : ℚ) ≠ 0 := ne_of_gt hD
  refine ⟨?_, ?_, ?_, ?_⟩
  · intro hlt
    simp [getPrevThreshold, linearThreshold, hlt]
  · intro hge hlt
    simp only [getPrevThreshold, linearThreshold, not_lt.mpr hge, if_false,
      and_true, if_pos (And.intro hge hlt)]
    ring
  · intro hge
    have hb1 : ¬ (n < ss) := not_lt.mpr (le_trans (le_of_lt h1) hge)
    have hb2 : ¬ (ss ≤ n ∧ n < es) := by
      rintro ⟨-, hx⟩
      exact absurd hge (not_le.mpr hx)
    simp [getPrevThreshold, linearThreshold, hb1, hb2]
  · simp only [getPrevThreshold, linearThreshold]
    by_cases hb1 : n < ss
    · rw [if_pos hb1]
      exact ⟨h2.1, h2.2⟩
    · rw [if_neg hb1]
      by_cases hb2 : ss ≤ n ∧ n < es
      · rw [if_pos hb2]
        have hn1 : (ss : ℚ) ≤ (n : ℚ) := by exact_mod_cast hb2.1
        have hn2 : (n : ℚ) < (es : ℚ) := by exact_mod_cast hb2.2
        have hkey : (sv - ev) / ((ss : ℚ) - (es : ℚ)) * ((n : ℚ) - (ss : ℚ)) + sv
            = (sv * ((es : ℚ) - (n : ℚ)) + ev * ((n : ℚ) - (ss : ℚ))) / ((es : ℚ) - (ss : ℚ)) := by
          field_simp
          ring
        rw [hkey]
        have e1 : (0 : ℚ) ≤ sv * ((es : ℚ) - (n : ℚ)) :=
          mul_nonneg h2.1 (by linarith)
        have e2 : (0 : ℚ) ≤ ev * ((n : ℚ) - (ss : ℚ)) :=
          mul_nonneg h3.1 (by linarith)
        have e3 : sv * ((es : ℚ) - (n : ℚ)) ≤ 1 * ((es : ℚ) - (n : ℚ)) :=
          mul_le_mul_of_nonneg_right h2.2 (by linarith)
        have e4 : ev * ((n : ℚ) - (ss : ℚ)) ≤ 1 * ((n : ℚ) - (ss : ℚ)) :=
          mul_le_mul_of_nonneg_right h3.2 (by linarith)
        constructor
        · apply div_nonneg (by linarith) (le_of_lt hD)
        · rw [div_le_one hD]
          linarith
      · rw [if_neg hb2]
        exact ⟨h3.1, h3.2⟩

theorem c7_witness :
    mkScheduledSamplingPolicy (SamplingArgs.linear 2 4 1 0) =
      .ok (SamplingPolicy.linear 2 4 1 0) ∧
    (0 : Int) ≤ 3 ∧
    ((2 : Int) ≤ 3 → (3 : Int) < 4 →
      getPrevThreshold (SamplingPolicy.linear 2 4 1 0) 3 =
        1 + ((1 : ℚ) - 0) / (((2 : Int) : ℚ) - ((4 : Int) : ℚ)) * (((3 : Int) : ℚ) - ((2 : Int) : ℚ))) ∧
    (0 ≤ getPrevThreshold (SamplingPolicy.linear 2 4 1 0) 3 ∧
      getPrevThreshold (SamplingPolicy.linear 2 4 1 0) 3 ≤ 1) := by
  have h := c7_linear_threshold 2 4 1 0 (SamplingPolicy.linear 2 4 1 0)
    (by norm_num [mkScheduledSamplingPolicy]) 3 (by decide)
  exact ⟨by norm_num [mkScheduledSamplingPolicy], by decide, h.2.1, h.2.2.2⟩

/-- C8: the step learning-rate policy equals `initial / 2^k` on the
whole interval `[k*decay_period, (k+1)*decay_period)` of global steps,
and at every positive multiple of the decay period the value is exactly
half the value one step earlier. -/
theorem c8_lr_step (init : ℚ) (d : Nat) (hd : 0 < d) (n k : Nat)
    (h1 : k * d ≤ n) (h2 : n < (k + 1) * d) :
    lr_step init d n = init / 2 ^ k ∧
    (0 < k → lr_step init d (k * d) = lr_step init d (k * d - 1) / 2) := by
  constructor
  · unfold lr_step
    rw [Nat.div_eq_of_lt_le h1 h2]
  · intro hk
    unfold lr_step
    have hdd : d ≤ k * d := Nat.le_mul_of_pos_left d hk
    have e1 : k * d / d = k := Nat.mul_div_cancel k hd
    have e2 : (k * d - 1) / d = k - 1 := by
      apply Nat.div_eq_of_lt_le
      · rw [Nat.sub_mul, one_mul]
        omega
      · have : k - 1 + 1 = k := by omega
        rw [this]
        omega
    rw [e1, e2, div_div]
    congr 1
    rw [← pow_succ]
    congr 1
    omega

theorem c8_witness :
    0 < 2 ∧ 2 * 2 ≤ 5 ∧ 5 < (2 + 1) * 2 ∧
    (lr_step 1 2 5 = 1 / 2 ^ 2 ∧
     (0 < 2 → lr_step 1 2 (2 * 2) = lr_step 1 2 (2 * 2 - 1) / 2)) :=
  ⟨by decide, by decide, by decide, c8_lr_step 1 2 (by decide) 5 2 (by decide) (by decide)⟩

/-- C9 counterexample: constructing the target-weight policy with the
`step` mode succeeds (the constructor stores the configuration without
validating it), and the NotImplementedError only appears when a weight
is requested — contradicting the claim that construction itself fails. -/
theorem c9_counterexample :
    mkTargetWeightsPolicy ⟨"step", 4⟩ = .ok ⟨⟨"step", 4⟩⟩ ∧
    get_weight ⟨⟨"step", 4⟩⟩ 0 = .error PyErr.notImplementedError := by
  exact ⟨rfl, by simp [get_weight]⟩

/-- C9 (amended): with the `step` mode selected, construction of the
target-weight policy always succeeds, and every subsequent per-position
weight request fails with NotImplementedError — validation happens at
call time, not construction time. -/
theorem c9_lazy_validation (args : TWArgs) (h : args.target_weights = "step") :
    mkTargetWeightsPolicy args = .ok ⟨args⟩ ∧
    ∀ i, get_weight ⟨args⟩ i = .error PyErr.notImplementedError := by
  refine ⟨rfl, fun i => ?_⟩
  simp [get_weight, h]

theorem c9_witness :
    (TWArgs.mk "step" 8).target_weights = "step" ∧
    mkTargetWeightsPolicy ⟨"step", 8⟩ = .ok ⟨⟨"step", 8⟩⟩ ∧
    get_weight ⟨⟨"step", 8⟩⟩ 3 = .error PyErr.notImplementedError :=
  ⟨rfl, (c9_lazy_validation ⟨"step", 8⟩ rfl).1, (c9_lazy_validation ⟨"step", 8⟩ rfl).2 3⟩

theorem genLoop_cons_ok {α : Type} (x : α) (xs : List α) (l : List Nat) :
    genLoop (x :: xs) l = .ok (l.map (fun i =>
      if h : i < (x :: xs).length then ((x :: xs).get ⟨i, h⟩, false) else (x, true))) := by
  induction l with
  | nil => rfl
  | cons a t ih =>
    by_cases h : a < (x :: xs).length
    · simp only [genLoop, dif_pos h, ih, List.map_cons, dif_pos h]
    · simp only [genLoop, dif_neg h, ih, List.map_cons, dif_neg h]

/-- C10: in Generate mode, an empty seed makes `step` fail with the
uncaught indexing error raised while fetching the dummy filler
`batch.inputs[0]` (whenever at least one position lies beyond the
seed), and for a non-empty seed every position inside the seed is fed
the seed value with `use_prev = False` while every position beyond it
is fed the first seed value with `use_prev = True`. -/
theorem c10_generate_feed {α : Type} (L : Nat) (hL : 1 ≤ L) :
    stepGenerateFeed L ([] : List α) = .error PyErr.indexError ∧
    ∀ (x : α) (xs : List α),
      stepGenerateFeed L (x :: xs) = .ok ((List.range L).map (fun i =>
        if h : i < (x :: xs).length then ((x :: xs).get ⟨i, h⟩, false) else (x, true))) := by
  constructor
  · unfold stepGenerateFeed
    obtain ⟨m, rfl⟩ : ∃ m, L = m + 1 := ⟨L - 1, by omega⟩
    rw [List.range_succ_eq_map]
    simp [genLoop]
  · intro x xs
    exact genLoop_cons_ok x xs (List.range L)

theorem c10_witness :
    1 ≤ 3 ∧
    stepGenerateFeed 3 ([] : List Nat) = .error PyErr.indexError ∧
    stepGenerateFeed 3 [7] = .ok [((7 : Nat), false), (7, true), (7, true)] := by
  refine ⟨by decide, (c10_generate_feed 3 (by decide)).1, ?_⟩
  rw [(c10_generate_feed 3 (by decide)).2 7 []]
  rfl

/-- C5: evaluating the subsampling phase at its boundary inputs with
sample_length 4 (window length 5).  A roll of width 5, equal to the
window length, makes `max_start = 0` pass the assertion but then crash
with ValueError inside `np.random.randint(0)`, although the claim says
sampling succeeds there; a roll of width 4 fails the `max_start >= 0`
assertion; a roll of width 6 succeeds. -/
theorem c5_randint_zero_failure :
    songStarts 4 5 (fun _ => 0) = .error PyErr.valueError ∧
    songStarts 4 4 (fun _ => 0) = .error PyErr.assertionError ∧
    songStarts 4 6 (fun _ => 0) = .ok [0, 0, 0] := by
  refine ⟨rfl, rfl, rfl⟩

theorem drawStarts_pos (m : Int) (hm : 0 < m) (draws : Nat → Nat) (l : List Nat) :
    drawStarts m draws l = .ok (l.map (fun k => (draws k : Int) % m)) := by
  induction l with
  | nil => rfl
  | cons a t ih => simp [drawStarts, npRandint, not_le.mpr hm, ih]

/-- C6 counterexample: for a roll of width 6 with sample_length 4 the
source has `max_start = 1`, and no state of the random source can ever
produce the start offset 1 = max_start, because `np.random.randint`
draws from the half-open range `[0, max_start)` — contradicting the
claim that every value up to and including max_start is attainable. -/
theorem c6_counterexample :
    ¬ ∃ (draws : Nat → Nat) (starts : List Int),
        songStarts 4 6 draws = .ok starts ∧ (1 : Int) ∈ starts := by
  rintro ⟨draws, starts, hok, hmem⟩
  have hok2 : drawStarts 1 draws (List.range 3) = .ok starts := hok
  rw [drawStarts_pos 1 (by decide) draws (List.range 3)] at hok2
  injection hok2 with hok2
  rw [← hok2] at hmem
  simp [Int.emod_one] at hmem

/-- C6 (amended): for every roll with `max_start >= 1` the subsampling
phase succeeds, every drawn start offset lies in the half-open range
`[0, max_start)`, and every value of that range (so up to
`max_start - 1`, but never `max_start` itself) is attainable for some
state of the random source. -/
theorem c6_start_range (lenSong sampleLength : Nat) (hs : 1 ≤ sampleLength)
    (hlen : sampleLength + 2 ≤ lenSong) :
    (∀ draws, ∃ starts, songStarts sampleLength lenSong draws = .ok starts ∧
       ∀ s ∈ starts, 0 ≤ s ∧ s < (lenSong : Int) - ((sampleLength : Int) + 1)) ∧
    (∀ v : Nat, (v : Int) < (lenSong : Int) - ((sampleLength : Int) + 1) →
       ∃ draws starts, songStarts sampleLength lenSong draws = .ok starts ∧
         (v : Int) ∈ starts) := by
  have hM : (0 : Int) < (lenSong : Int) - ((sampleLength : Int) + 1) := by
    have hcast : ((sampleLength : Int) + 2) ≤ (lenSong : Int) := by exact_mod_cast hlen
    linarith
  have hnotneg : ¬ ((lenSong : Int) - ((sampleLength : Int) + 1) < 0) := by linarith
  constructor
  · intro draws
    refine ⟨(List.range (2 * lenSong / sampleLength)).map
      (fun k => (draws k : Int) % ((lenSong : Int) - ((sampleLength : Int) + 1))), ?_, ?_⟩
    · unfold songStarts
      rw [if_neg hnotneg, drawStarts_pos _ hM]
    · intro s hsm
      simp only [List.mem_map] at hsm
      obtain ⟨k, -, rfl⟩ := hsm
      exact ⟨Int.emod_nonneg _ (ne_of_gt hM), Int.emod_lt_of_pos _ hM⟩
  · intro v hv
    have hvmod : (v : Int) % ((lenSong : Int) - ((sampleLength : Int) + 1)) = v :=
      Int.emod_eq_of_lt (by positivity) hv
    refine ⟨fun _ => v, (List.range (2 * lenSong / sampleLength)).map
      (fun _ => (v : Int)), ?_, ?_⟩
    · unfold songStarts
      rw [if_neg hnotneg, drawStarts_pos _ hM]
      simp [hvmod]
    · have hnb : 1 ≤ 2 * lenSong / sampleLength := by
        rw [Nat.le_div_iff_mul_le hs]
        omega
      simp only [List.mem_map, List.mem_range]
      exact ⟨0, by omega, trivial⟩

theorem c6_witness :
    1 ≤ 4 ∧ 4 + 2 ≤ 7 ∧
    (∃ starts, songStarts 4 7 (fun _ => 5) = .ok starts ∧
       ∀ s ∈ starts, 0 ≤ s ∧ s < ((7 : Nat) : Int) - (((4 : Nat) : Int) + 1)) ∧
    (∃ draws starts, songStarts 4 7 draws = .ok starts ∧ ((1 : Nat) : Int) ∈ starts) :=
  ⟨by decide, by decide,
   (c6_start_range 7 4 (by decide) (by decide)).1 (fun _ => 5),
   (c6_start_range 7 4 (by decide) (by decide)).2 1 (by decide)⟩

/-- C4: in every batch built from windows, for every step `t` with
`t + 1` still in range, entry `(j, pitch)` of `target[t]` is 1 exactly
when entry `(j, pitch)` of `input[t+1]` is +1, and 0 exactly when it is
-1 — the target sequence is the input sequence shifted by one step and
thresholded to the `{0, 1}` encoding. -/
theorem c4_target_shift (samples : List (Nat → Nat → ℚ)) (L t j : Nat)
    (ht : t + 1 < L)
    (T I : List (Nat → ℚ)) (g f : Nat → ℚ)
    (hT : (buildBatch samples L).targets[t]? = some T)
    (hI : (buildBatch samples L).inputs[t+1]? = some I)
    (hg : T[j]? = some g) (hf : I[j]? = some f) (p : Nat) :
    (g p = 1 ↔ f p = 1) ∧ (g p = 0 ↔ f p = -1) := by
  have ht0 : t < L := by omega
  unfold buildBatch at hT hI
  rw [List.getElem?_map, List.getElem?_range ht0, Option.map_some'] at hT
  rw [List.getElem?_map, List.getElem?_range ht, Option.map_some'] at hI
  injection hT with hT
  injection hI with hI
  subst hT
  subst hI
  rw [List.getElem?_map] at hg hf
  cases hsj : samples[j]? with
  | none =>
    rw [hsj] at hg
    simp at hg
  | some s =>
    rw [hsj, Option.map_some'] at hg hf
    injection hg with hg
    injection hf with hf
    subst hg
    subst hf
    by_cases hc : s p (t + 1) = 1
    · constructor <;> simp [hc] <;> norm_num
    · constructor <;> simp [hc] <;> norm_num

theorem c4_witness :
    (0 + 1 < 2) ∧
    (((if (1 : ℚ) = 1 then (1 : ℚ) else 0) = 1 ↔ (if (1 : ℚ) = 1 then (1 : ℚ) else -1) = 1) ∧
     ((if (1 : ℚ) = 1 then (1 : ℚ) else 0) = 0 ↔ (if (1 : ℚ) = 1 then (1 : ℚ) else -1) = -1)) :=
  ⟨by decide,
   c4_target_shift [fun _ _ => (1 : ℚ)] 2 0 0 (by decide)
     [fun _ => if (1 : ℚ) = 1 then (1 : ℚ) else 0]
     [fun _ => if (1 : ℚ) = 1 then (1 : ℚ) else -1]
     (fun _ => if (1 : ℚ) = 1 then (1 : ℚ) else 0)
     (fun _ => if (1 : ℚ) = 1 then (1 : ℚ) else -1)
     rfl rfl rfl rfl 0⟩

theorem div_lt_ceilDiv (len s tick : Nat) (hs : 1 ≤ s) (ht : tick < len) :
    tick / s < (len + s - 1) / s := by
  have hmod := Nat.div_add_mod (len + s - 1) s
  have hmlt : (len + s - 1) % s < s := Nat.mod_lt _ (by omega)
  have hle : len ≤ s * ((len + s - 1) / s) := by omega
  rw [Nat.div_lt_iff_lt_mul (by omega : 0 < s)]
  have h2 : tick < s * ((len + s - 1) / s) := lt_of_lt_of_le ht hle
  rw [Nat.mul_comm] at h2
  exact h2

/-- C3: for every valid score, the cells set to 1 by the encoder
coincide exactly with the `(relative pitch, tick / scale)` pairs of the
notes emitted by decoding the encoded piano roll — the round-trip
preserves the set of `(pitch_class, time_unit)` activations on the
quantized grid. -/
theorem c3_roundtrip (song : Song) (hv : validSong song) (p u : Nat) :
    (convert_song2array song).val p u = 1 ↔
      ((p : Int), u) ∈ decodedPairs (convert_array2song (convert_song2array song)) := by
  obtain ⟨hscale, hnotes⟩ := hv
  have hsc24 : get_scale emptySong = 24 := rfl
  have hval : ∀ a b : Nat, ((convert_song2array song).val a b = 1 ↔
      cellActive song a b = true) := by
    intro a b
    show (if cellActive song a b then (1 : ℚ) else 0) = 1 ↔ _
    by_cases hcb : cellActive song a b
    · simp [hcb]
    · norm_num [hcb]
  have hgt : ∀ a b : Nat, (((convert_song2array song).val a b > 1 / 10 ^ 12) ↔
      cellActive song a b = true) := by
    intro a b
    show ((if cellActive song a b then (1 : ℚ) else 0) > 1 / 10 ^ 12) ↔ _
    by_cases hcb : cellActive song a b
    · rw [if_pos hcb]
      constructor
      · intro _; exact hcb
      · intro _; norm_num
    · rw [if_neg hcb]
      constructor
      · intro h; norm_num at h
      · intro h; exact absurd h hcb
  have hbound : ∀ a b : Nat, cellActive song a b = true →
      a < NB_NOTES ∧ b < (convert_song2array song).width := by
    intro a b hab
    unfold cellActive at hab
    simp only [List.any_eq_true, Bool.and_eq_true, beq_iff_eq] at hab
    obtain ⟨tr, htr, n, hn, hrel, hdiv⟩ := hab
    obtain ⟨hp1, hp2, ht1⟩ := hnotes tr htr n hn
    constructor
    · unfold Note.get_relative_note at hrel
      omega
    · rw [← hdiv]
      show n.tick / get_scale song < (song.length + get_scale song - 1) / get_scale song
      exact div_lt_ceilDiv song.length (get_scale song) n.tick hscale ht1
  constructor
  · intro h1
    have hact : cellActive song p u = true := (hval p u).mp h1
    obtain ⟨hpN, huW⟩ := hbound p u hact
    simp only [decodedPairs, songNotes, convert_array2song, List.flatMap_cons,
      List.flatMap_nil, List.append_nil, List.mem_map, List.mem_flatMap,
      List.mem_filterMap, List.mem_range]
    refine ⟨Note.set_relative_note p (u * get_scale emptySong), ⟨p, hpN, u, huW, ?_⟩, ?_⟩
    · rw [if_pos ((hgt p u).mpr hact)]
    · unfold Note.set_relative_note Note.get_relative_note
      dsimp only
      rw [hsc24]
      have e1 : ((p + NOTE_MIN : Nat) : Int) - (NOTE_MIN : Int) = (p : Int) := by
        push_cast
        ring
      have e2 : u * 24 / 24 = u := Nat.mul_div_cancel u (by norm_num)
      rw [e1, e2]
  · intro h2
    simp only [decodedPairs, songNotes, convert_array2song, List.flatMap_cons,
      List.flatMap_nil, List.append_nil, List.mem_map, List.mem_flatMap,
      List.mem_filterMap, List.mem_range] at h2
    obtain ⟨n, ⟨p2, hp2, u2, hu2, hif⟩, hpair⟩ := h2
    by_cases hcv : (convert_song2array song).val p2 u2 > 1 / 10 ^ 12
    · rw [if_pos hcv] at hif
      injection hif with hif
      subst hif
      unfold Note.set_relative_note Note.get_relative_note at hpair
      dsimp only at hpair
      rw [hsc24, Prod.mk.injEq] at hpair
      obtain ⟨hpp, huu⟩ := hpair
      have hp2p : p2 = p := by omega
      have hu2u : u2 = u := by
        rw [Nat.mul_div_cancel u2 (by norm_num)] at huu
        exact huu
      subst hp2p
      subst hu2u
      exact (hval _ _).mpr ((hgt _ _).mp hcv)
    · rw [if_neg hcv] at hif
      simp at hif

theorem c3_witness :
    validSong sampleSong ∧
    ((convert_song2array sampleSong).val 39 1 = 1 ↔
      ((39 : Int), (1 : Nat)) ∈ decodedPairs (convert_array2song (convert_song2array sampleSong))) :=
  ⟨by decide, c3_roundtrip sampleSong (by decide) 39 1⟩
